import Mathlib

/-!
# Electron cookie filter and remote-object reference table

A shallow embedding of two pieces of glue code:

* `atom/browser/api/atom_api_cookies.cc`: `MatchesDomain`, `MatchesCookie`,
  `FilterCookies`, `OnSetCookie`, `SetCookieOnIO`;
* `atom/common/api/remote_object_freer.cc`: `RemoteObjectFreer::AddRef` and
  `RemoteObjectFreer::RunDestructor` over the static table `ref_mapper_`.

A `std::string` is a list of characters.  Library calls that can throw
(`substr`, `insert`, `erase`) return an `Except`, and the one loop of the
program runs on explicit fuel, so that termination and the absence of an
out-of-range step are statements about the model rather than assumptions.
-/

namespace Atom

/-! ## Strings -/

/-- A `std::string`, as the sequence of its characters. -/
abbrev Str := List Char

/-- What can stop a run of the model short of a result. -/
inductive Fault where
  /-- A `std::out_of_range` thrown by a string operation. -/
  | out_of_range
  /-- The step budget of the loop was used up. -/
  | out_of_fuel
  deriving DecidableEq, Repr

/-- The value of `std::string::npos` is `none`; a found index is `some i`. -/
abbrev Pos := Option Nat

/-- Index of the first occurrence of `ch` in `s`, when there is one. -/
def firstIndex (ch : Char) : Str → Pos
  | [] => none
  | x :: xs => if x = ch then some 0 else (firstIndex ch xs).map (· + 1)

/-- The call `s.find(ch, pos)`: the index of the first `ch` at index `pos` or later,
`npos` when there is none (also when `pos` is past the end). -/
def find (s : Str) (ch : Char) (pos : Nat) : Pos :=
  (firstIndex ch (s.drop pos)).map (· + pos)

/-- The call `s.substr(pos)`: throws `std::out_of_range` when `pos > s.size()`. -/
def substr (s : Str) (pos : Nat) : Except Fault Str :=
  if pos ≤ s.length then .ok (s.drop pos) else .error .out_of_range

/-- The call `s.insert(index, t)`: throws `std::out_of_range` when `index > s.size()`. -/
def insert (s : Str) (index : Nat) (t : Str) : Except Fault Str :=
  if index ≤ s.length then .ok (s.take index ++ t ++ s.drop index) else .error .out_of_range

/-- The call `s.erase(index, count)`: removes `min(count, size - index)` characters
from `index` on (`count = npos` removes the rest); throws `std::out_of_range` when
`index > s.size()`. -/
def erase (s : Str) (index : Nat) (count : Pos) : Except Fault Str :=
  if index ≤ s.length then
    match count with
    | none => .ok (s.take index)
    | some k => .ok (s.take index ++ s.drop (index + k))
  else .error .out_of_range

/-- Modelled from the spec: `net::cookie_util::DomainIsHostOnly` belongs to the host
browser engine and is not part of these sources.  A domain is host-only when it has
no leading `.`; the empty string is host-only (the emptiness test comes first, so no
character of an empty string is read). -/
def DomainIsHostOnly (domain_string : Str) : Bool :=
  domain_string.isEmpty || domain_string.head? != some '.'

/-! ## `MatchesDomain` -/

/-- The `for` loop of `MatchesDomain`, after its init statement, on `fuel` steps:
while `sub_domain.length() >= filter.length()`, return `true` on equality, else erase
`sub_domain` up to its next dot after index 0 (everything when there is none). -/
def MatchesDomainLoop (filter : Str) : Nat → Str → Except Fault Bool
  | 0, _ => .error .out_of_fuel
  | fuel + 1, sub_domain =>
    if sub_domain.length ≥ filter.length then
      if sub_domain = filter then .ok true
      else do
        let next_dot := find sub_domain '.' 1
        let sub_domain ← erase sub_domain 0 next_dot
        MatchesDomainLoop filter fuel sub_domain
    else .ok false

/-- The filter after the first statement of `MatchesDomain`: a leading `.` is added
to a host-only filter. -/
def normalizeFilter (filter : Str) : Except Fault Str :=
  if DomainIsHostOnly filter then insert filter 0 ['.'] else .ok filter

/-- The local `sub_domain` when the loop is entered: the cookie domain with a leading
`.` stripped when it has one, then a `.` put in front. -/
def normalizeDomain (domain : Str) : Except Fault Str := do
  let sub_domain := domain
  let sub_domain ← if !DomainIsHostOnly sub_domain then substr sub_domain 1 else pure sub_domain
  insert sub_domain 0 ['.']

/-- A run of `MatchesDomain(filter, domain)` on a loop budget of `fuel` steps. -/
def MatchesDomainRun (fuel : Nat) (filter domain : Str) : Except Fault Bool := do
  let filter ← normalizeFilter filter
  let sub_domain ← normalizeDomain domain
  MatchesDomainLoop filter fuel sub_domain

/-- The budget that `MatchesDomain` runs on: one step for each character of the
dotted cookie domain and one for the test that leaves the loop. -/
def matchesDomainFuel (domain : Str) : Nat := domain.length + 2

/-- The function `MatchesDomain(filter, domain)`.  `MatchesDomainRun_ok` shows that
the run below always ends in `.ok`, so the `false` of the other branch is never
taken. -/
def MatchesDomain (filter domain : Str) : Bool :=
  match MatchesDomainRun (matchesDomainFuel domain) filter domain with
  | .ok b => b
  | .error _ => false

/-- The dotted form `N(s)` of a domain string: `s` itself when it starts with `.`,
else `.` followed by `s`. -/
def dotted (s : Str) : Str := if s.head? = some '.' then s else '.' :: s

/-- The bare host of a domain string: `s` without its leading `.`, when it has one. -/
def bareHost (s : Str) : Str := if s.head? = some '.' then s.tail else s

/-! ## Cookies and filters -/

/-- The fields of a `net::CanonicalCookie` that this code reads (the class itself
belongs to the host engine). -/
structure CanonicalCookie where
  Name : Str
  Value : Str
  Domain : Str
  Path : Str
  IsSecure : Bool
  IsHttpOnly : Bool
  IsPersistent : Bool
  deriving DecidableEq, Repr

/-- The filter dictionary, by the keys `MatchesCookie` reads: `GetString` and
`GetBoolean` succeed exactly on a field that is `some`. -/
structure CookieFilter where
  name : Option Str
  path : Option Str
  domain : Option Str
  secure : Option Bool
  session : Option Bool
  deriving DecidableEq, Repr

/-- The function `MatchesCookie(filter, cookie)`: the five tests in source order, each
returning `false` at once when its field is present and differs. -/
def MatchesCookie (filter : CookieFilter) (cookie : CanonicalCookie) : Bool :=
  if (match filter.name with | some str => str != cookie.Name | none => false) then false
  else if (match filter.path with | some str => str != cookie.Path | none => false) then false
  else if (match filter.domain with
      | some str => !MatchesDomain str cookie.Domain | none => false) then false
  else if (match filter.secure with | some b => b != cookie.IsSecure | none => false) then false
  else if (match filter.session with
      | some b => b != !cookie.IsPersistent | none => false) then false
  else true

/-- A task posted to the UI thread that settles the pending promise. -/
inductive UITask where
  /-- From `util::Promise::ResolvePromise<const net::CookieList&>`. -/
  | ResolvePromise (result : List CanonicalCookie)
  /-- From `util::Promise::ResolveEmptyPromise`. -/
  | ResolveEmptyPromise
  /-- From `util::Promise::RejectPromise`, with its message. -/
  | RejectPromise (errmsg : Str)
  deriving DecidableEq, Repr

/-- The loop of `FilterCookies`: `result` starts empty and every matching cookie of
`list` is pushed to its back, in the order of `list`. -/
def filterLoop (filter : CookieFilter) (list : List CanonicalCookie) : List CanonicalCookie :=
  list.foldl (fun result cookie => if MatchesCookie filter cookie then result ++ [cookie] else result) []

/-- The function `FilterCookies(filter, promise, list, excluded_list)`: the tasks it posts
to the UI thread, which is the one resolution of the promise with `result`. -/
def FilterCookies (filter : CookieFilter) (list excluded_list : List CanonicalCookie) :
    List UITask :=
  let _ := excluded_list
  [UITask.ResolvePromise (filterLoop filter list)]

/-! ## Setting a cookie -/

/-- Modelled from the spec: the enumeration `net::CanonicalCookie::CookieInclusionStatus`
is declared in the host engine.  The seven statuses that `OnSetCookie` names are kept
apart; `OTHER` stands for every enumerator it leaves to `default`. -/
inductive CookieInclusionStatus where
  | INCLUDE
  | EXCLUDE_HTTP_ONLY
  | EXCLUDE_SECURE_ONLY
  | EXCLUDE_FAILURE_TO_STORE
  | EXCLUDE_INVALID_DOMAIN
  | EXCLUDE_INVALID_PREFIX
  | EXCLUDE_NONCOOKIEABLE_SCHEME
  | OTHER (code : Nat)
  deriving DecidableEq, Repr

/-- The `switch` of `OnSetCookie`: the message chosen for a status. -/
def errmsgOf : CookieInclusionStatus → Str
  | .EXCLUDE_HTTP_ONLY => "Failed to create httponly cookie".toList
  | .EXCLUDE_SECURE_ONLY => "Cannot create a secure cookie from an insecure URL".toList
  | .EXCLUDE_FAILURE_TO_STORE => "Failed to parse cookie".toList
  | .EXCLUDE_INVALID_DOMAIN => "Failed to get cookie domain".toList
  | .EXCLUDE_INVALID_PREFIX => "Failed because the cookie violated prefix rules.".toList
  | .EXCLUDE_NONCOOKIEABLE_SCHEME => "Cannot set cookie for current scheme".toList
  | .INCLUDE => "".toList
  | .OTHER _ => "Setting cookie failed".toList

/-- The function `OnSetCookie(promise, status)`: the tasks it posts to the UI thread. -/
def OnSetCookie (status : CookieInclusionStatus) : List UITask :=
  let errmsg := errmsgOf status
  if errmsg.isEmpty then [UITask.ResolveEmptyPromise] else [UITask.RejectPromise errmsg]

/-- The parts of a `GURL` that `SetCookieOnIO` reads. -/
structure GURL where
  is_valid : Bool
  scheme : Str
  deriving DecidableEq, Repr

/-- The `details` dictionary of a set-cookie request, by the keys `SetCookieOnIO`
reads; `Dbl` is the type of its date fields. -/
structure CookieDetails (Dbl : Type) where
  url : Option Str
  name : Option Str
  value : Option Str
  domain : Option Str
  path : Option Str
  secure : Option Bool
  httpOnly : Option Bool
  creationDate : Option Dbl
  expirationDate : Option Dbl
  lastAccessDate : Option Dbl

/-- The host-engine functions that `SetCookieOnIO` calls, taken as given: URL parsing,
the time constructors and the synthesis of a cookie with its canonical-form check.
`Cookie` is the engine's cookie object. -/
structure Host (Dbl Time Cookie : Type) where
  /-- The constructor `GURL(url_string)`. -/
  parse : Str → GURL
  /-- The test `date == 0` on a double. -/
  isZero : Dbl → Bool
  /-- The default `base::Time()`. -/
  nullTime : Time
  UnixEpoch : Time
  FromDoubleT : Dbl → Time
  /-- The call `CreateSanitizedCookie(url, name, value, domain, path, creation_time,
  expiration_time, last_access_time, secure, http_only, ...)`; `none` is a null pointer. -/
  CreateSanitizedCookie :
    GURL → Str → Str → Str → Str → Time → Time → Time → Bool → Bool → Option Cookie
  IsCanonical : Cookie → Bool

/-- The `net::CookieOptions` handed to the store. -/
structure CookieOptions where
  include_httponly : Bool
  deriving DecidableEq, Repr

/-- One call `SetCanonicalCookieAsync(cookie, scheme, options, callback)`; the callback
is always `OnSetCookie` bound to the promise. -/
structure StoreCall (Cookie : Type) where
  cookie : Cookie
  source_scheme : Str
  options : CookieOptions

/-- What one run of `SetCookieOnIO` does: its calls to the cookie store and the tasks
it posts to the UI thread itself. -/
structure Effects (Cookie : Type) where
  store_calls : List (StoreCall Cookie)
  posted : List UITask

/-- A date of `details` as a `base::Time`: the default time when the key is absent,
the Unix epoch for `0`, else `FromDoubleT`. -/
def timeOf {Dbl Time Cookie : Type} (host : Host Dbl Time Cookie) : Option Dbl → Time
  | none => host.nullTime
  | some date => if host.isZero date then host.UnixEpoch else host.FromDoubleT date

/-- The local `url` of `SetCookieOnIO`: `GURL(url_string)`, the string being empty when
`details` has no `url`. -/
def requestUrl {Dbl Time Cookie : Type} (host : Host Dbl Time Cookie)
    (details : CookieDetails Dbl) : GURL :=
  let url_string := details.url.getD []
  host.parse url_string

/-- The local `name` of `SetCookieOnIO`, empty when `details` has no `name`. -/
def requestName {Dbl : Type} (details : CookieDetails Dbl) : Str :=
  details.name.getD []

/-- The local `canonical_cookie` of `SetCookieOnIO`: the strings and flags are read from
`details` (empty and `false` when absent) and handed to `CreateSanitizedCookie`. -/
def synthesize {Dbl Time Cookie : Type} (host : Host Dbl Time Cookie)
    (details : CookieDetails Dbl) : Option Cookie :=
  let name := requestName details
  let value := details.value.getD []
  let domain := details.domain.getD []
  let path := details.path.getD []
  let secure := details.secure.getD false
  let http_only := details.httpOnly.getD false
  let creation_time := timeOf host details.creationDate
  let expiration_time := timeOf host details.expirationDate
  let last_access_time := timeOf host details.lastAccessDate
  let url := requestUrl host details
  host.CreateSanitizedCookie url name value domain path
    creation_time expiration_time last_access_time secure http_only

/-- The function `SetCookieOnIO(getter, details, promise)`: the three tests in source
order (cookie present and canonical, url valid, name not empty), each handing its status
to the completion callback at once, and the call to the store when all three pass. -/
def SetCookieOnIO {Dbl Time Cookie : Type} (host : Host Dbl Time Cookie)
    (details : CookieDetails Dbl) : Effects Cookie :=
  let name := requestName details
  let http_only := details.httpOnly.getD false
  let url := requestUrl host details
  let canonical_cookie := synthesize host details
  let completion_callback := OnSetCookie
  match canonical_cookie with
  | none => ⟨[], completion_callback .EXCLUDE_FAILURE_TO_STORE⟩
  | some cookie =>
    if !host.IsCanonical cookie then ⟨[], completion_callback .EXCLUDE_FAILURE_TO_STORE⟩
    else if !url.is_valid then ⟨[], completion_callback .EXCLUDE_INVALID_DOMAIN⟩
    else if name.isEmpty then ⟨[], completion_callback .EXCLUDE_FAILURE_TO_STORE⟩
    else
      let options : CookieOptions := ⟨http_only⟩
      ⟨[⟨cookie, url.scheme, options⟩], []⟩

/-- Whether the synthesized cookie is present and passes the canonical-form check. -/
def cookieIsCanonical {Dbl Time Cookie : Type} (host : Host Dbl Time Cookie)
    (details : CookieDetails Dbl) : Bool :=
  match synthesize host details with
  | none => false
  | some cookie => host.IsCanonical cookie

/-- A host for examples: a url is valid when its string is not empty, every request
synthesizes to a cookie with the requested name, value, domain and path, and every
cookie is canonical. -/
def exampleHost : Host Nat Nat CanonicalCookie where
  parse := fun url_string => ⟨!url_string.isEmpty, "https".toList⟩
  isZero := fun date => date == 0
  nullTime := 0
  UnixEpoch := 1
  FromDoubleT := fun date => date + 1
  CreateSanitizedCookie := fun _ name value domain path _ expiration_time _ secure http_only =>
    some ⟨name, value, domain, path, secure, http_only, expiration_time != 0⟩
  IsCanonical := fun _ => true

/-- A request with a url and a value and, when `name` is `some`, that name. -/
def exampleDetails (url : Str) (name : Option Str) : CookieDetails Nat :=
  ⟨some url, name, some "1".toList, none, none, none, none, none, none, none⟩

/-! ## The reference table of `RemoteObjectFreer` -/

/-- A `std::map<K, V>`, as the list of its rows.  The program never iterates over a
map, so only lookups, emptiness, insertion and erasure are modelled and the order
of the rows carries no meaning. -/
abbrev CppMap (K V : Type) := List (K × V)

/-- The row of key `k`, when the map has one. -/
def lookup {K V : Type} [DecidableEq K] (m : CppMap K V) (k : K) : Option V :=
  match m with
  | [] => none
  | (k', v) :: rest => if k' = k then some v else lookup rest k

/-- The call `m.erase(k)`. -/
def mapErase {K V : Type} [DecidableEq K] (m : CppMap K V) (k : K) : CppMap K V :=
  m.filter (fun row => decide (row.1 ≠ k))

/-- Assignment through a reference to the row of `k`: the row now holds `v`. -/
def mapSet {K V : Type} [DecidableEq K] (m : CppMap K V) (k : K) (v : V) : CppMap K V :=
  (k, v) :: mapErase m k

/-- The map after `m[k]` was evaluated: a row with the value-initialised `dflt` is
inserted when `k` has none. -/
def subscript {K V : Type} [DecidableEq K] (m : CppMap K V) (k : K) (dflt : V) : CppMap K V :=
  match lookup m k with
  | some _ => m
  | none => (k, dflt) :: m

/-- The value that `m[k]` refers to. -/
def valueAt {K V : Type} [DecidableEq K] (m : CppMap K V) (k : K) (dflt : V) : V :=
  (lookup m k).getD dflt

/-- The static `ref_mapper_`: context id to object id to reference count. -/
abbrev RefMapper := CppMap Str (CppMap Int Int)

/-- A value of a 32-bit `int` after an arithmetic step, on a two's-complement machine
(where the C++ standard leaves signed overflow undefined, the increment wraps). -/
def wrapInt (x : Int) : Int := (x + 2147483648) % 4294967296 - 2147483648

/-- The function `RemoteObjectFreer::AddRef(context_id, object_id)`, the statement
`ref_mapper_[context_id][object_id]++`. -/
def AddRef (context_id : Str) (object_id : Int) (ref_mapper_ : RefMapper) : RefMapper :=
  let ref_mapper_ := subscript ref_mapper_ context_id []
  let objects := subscript (valueAt ref_mapper_ context_id []) object_id 0
  let objects := mapSet objects object_id (wrapInt (valueAt objects object_id 0 + 1))
  mapSet ref_mapper_ context_id objects

/-- The members of a `RemoteObjectFreer`. -/
structure RemoteObjectFreer where
  context_id_ : Str
  object_id_ : Int
  routing_id_ : Int
  deriving DecidableEq, Repr

/-- An element of the `base::ListValue` sent with the message. -/
inductive Value where
  | String (s : Str)
  | Integer (i : Int)
  deriving DecidableEq, Repr

/-- One call `electron_ptr->Message(internal, channel, args)`. -/
structure Message where
  internal : Bool
  channel : Str
  args : List Value
  deriving DecidableEq, Repr

/-- The method `RemoteObjectFreer::RunDestructor()`: the table afterwards and the
messages sent.  `FromRoutingID` tells whether `content::RenderFrame::FromRoutingID`
finds a frame for a routing id. -/
def RunDestructor (FromRoutingID : Int → Bool) (self : RemoteObjectFreer)
    (ref_mapper_ : RefMapper) : RefMapper × List Message :=
  if !FromRoutingID self.routing_id_ then (ref_mapper_, [])
  else
    let channel := "ELECTRON_BROWSER_DEREFERENCE".toList
    let args := [Value.String self.context_id_, Value.Integer self.object_id_]
    -- `ref_mapper_[context_id_][object_id_]`, which creates the rows it does not find
    let ref_mapper_ := subscript ref_mapper_ self.context_id_ []
    let objects := subscript (valueAt ref_mapper_ self.context_id_ []) self.object_id_ 0
    let args := args ++ [Value.Integer (valueAt objects self.object_id_ 0)]
    let ref_mapper_ := mapSet ref_mapper_ self.context_id_ objects
    -- `ref_mapper_[context_id_].erase(object_id_)`
    let ref_mapper_ := subscript ref_mapper_ self.context_id_ []
    let ref_mapper_ := mapSet ref_mapper_ self.context_id_
      (mapErase (valueAt ref_mapper_ self.context_id_ []) self.object_id_)
    -- `if (ref_mapper_[context_id_].empty()) ref_mapper_.erase(context_id_)`
    let ref_mapper_ := subscript ref_mapper_ self.context_id_ []
    let ref_mapper_ :=
      if (valueAt ref_mapper_ self.context_id_ []).isEmpty then mapErase ref_mapper_ self.context_id_
      else ref_mapper_
    (ref_mapper_, [⟨true, channel, args⟩])

/-- One operation on the table: an `AddRef`, or the finalisation of a freer, with
whether the frame of its routing id is still found at that moment. -/
inductive Op where
  | AddRef (context_id : Str) (object_id : Int)
  | RunDestructor (self : RemoteObjectFreer) (render_frame : Bool)
  deriving DecidableEq, Repr

/-- The table and the messages sent so far, after one more operation. -/
def step (state : RefMapper × List Message) : Op → RefMapper × List Message
  | .AddRef context_id object_id => (AddRef context_id object_id state.1, state.2)
  | .RunDestructor self render_frame =>
    let r := RunDestructor (fun _ => render_frame) self state.1
    (r.1, state.2 ++ r.2)

/-- A finite sequence of operations, run from `state`. -/
def run (ops : List Op) (state : RefMapper × List Message) : RefMapper × List Message :=
  ops.foldl step state

/-- The count in the row of `(context_id, object_id)`, when the table has that row. -/
def entry (ref_mapper_ : RefMapper) (context_id : Str) (object_id : Int) : Option Int :=
  (lookup ref_mapper_ context_id).bind (fun objects => lookup objects object_id)

/-- Whether the outer map has a row for `context_id`. -/
def hasContext (ref_mapper_ : RefMapper) (context_id : Str) : Bool :=
  (lookup ref_mapper_ context_id).isSome

/-- The release message that carries `(context_id, object_id, ref_count)`. -/
def releaseMessage (context_id : Str) (object_id ref_count : Int) : Message :=
  ⟨true, "ELECTRON_BROWSER_DEREFERENCE".toList,
    [Value.String context_id, Value.Integer object_id, Value.Integer ref_count]⟩

/-- How many `AddRef(context_id, object_id)` a sequence of operations holds. -/
def addRefCount (ops : List Op) (context_id : Str) (object_id : Int) : Nat :=
  ops.countP (fun op => decide (op = Op.AddRef context_id object_id))

/-- Whether an operation is a finalisation of the key `(context_id, object_id)`. -/
def finalizes (context_id : Str) (object_id : Int) : Op → Bool
  | .AddRef _ _ => false
  | .RunDestructor self _ => decide (self.context_id_ = context_id ∧ self.object_id_ = object_id)

/-- No row of the outer map holds an empty inner map. -/
def NoEmptyContext (t : RefMapper) : Prop := ∀ row ∈ t, row.2 ≠ []

/-! ## The suffix reading of `MatchesDomain` -/

theorem firstIndex_eq_none {ch : Char} {s : Str} (h : firstIndex ch s = none) : ch ∉ s := by
  induction s with
  | nil => simp
  | cons x xs ih =>
    unfold firstIndex at h
    split at h
    · simp at h
    · rename_i hx
      simp only [Option.map_eq_none'] at h
      simp only [List.mem_cons, not_or]
      exact ⟨fun e => hx e.symm, ih h⟩

theorem firstIndex_eq_some {ch : Char} {s : Str} {j : Nat} (h : firstIndex ch s = some j) :
    ch ∉ s.take j ∧ (s.drop j).head? = some ch := by
  induction s generalizing j with
  | nil => simp [firstIndex] at h
  | cons x xs ih =>
    unfold firstIndex at h
    split at h
    · rename_i hx
      simp only [Option.some.injEq] at h
      subst h
      simp [hx]
    · rename_i hx
      simp only [Option.map_eq_some'] at h
      obtain ⟨k, hk, rfl⟩ := h
      have := ih hk
      simp only [List.take_succ_cons, List.mem_cons, not_or, List.drop_succ_cons]
      exact ⟨⟨fun e => hx e.symm, this.1⟩, this.2⟩

/-- A string that starts with `ch` and is a suffix of `pre ++ s` is a suffix of `s`
when `pre` holds no `ch`. -/
theorem suffix_of_suffix_append {ch : Char} {f pre s : Str} (hf : f.head? = some ch)
    (hpre : ch ∉ pre) (h : f <:+ pre ++ s) : f <:+ s := by
  induction pre with
  | nil => simpa using h
  | cons x xs ih =>
    simp only [List.mem_cons, not_or] at hpre
    rw [List.cons_append, List.suffix_cons_iff] at h
    rcases h with h | h
    · subst h
      simp only [List.head?_cons, Option.some.injEq] at hf
      exact absurd hf.symm hpre.1
    · exact ih hpre.2 h

theorem mem_of_head? {ch : Char} {f : Str} (hf : f.head? = some ch) : ch ∈ f := by
  cases f with
  | nil => simp at hf
  | cons x xs =>
    simp only [List.head?_cons, Option.some.injEq] at hf
    simp [hf]

/-- The loop decides whether the dotted filter is a suffix of the dotted remainder,
on any budget above the length of the remainder. -/
theorem MatchesDomainLoop_spec (filter : Str) (hf : filter.head? = some '.') :
    ∀ (fuel : Nat) (sub : Str), sub.length < fuel → (sub = [] ∨ sub.head? = some '.') →
      ∃ b, MatchesDomainLoop filter fuel sub = .ok b ∧ (b = true ↔ filter <:+ sub) := by
  have hfne : 1 ≤ filter.length := by
    cases filter with
    | nil => simp at hf
    | cons x xs => simp
  intro fuel
  induction fuel with
  | zero => intro sub h; omega
  | succ fuel ih =>
    intro sub hlen hsub
    unfold MatchesDomainLoop
    by_cases hge : sub.length ≥ filter.length
    · rw [if_pos hge]
      by_cases heq : sub = filter
      · rw [if_pos heq]
        exact ⟨true, rfl, by simp [heq]⟩
      · rw [if_neg heq]
        obtain ⟨x, rest, rfl⟩ : ∃ x rest, sub = x :: rest := by
          cases sub with
          | nil => simp only [List.length_nil] at hge; omega
          | cons x rest => exact ⟨x, rest, rfl⟩
        have hx : x = '.' := by simpa using hsub
        subst hx
        simp only [List.length_cons] at hlen
        cases hfi : firstIndex '.' rest with
        | none =>
          have hno := firstIndex_eq_none hfi
          obtain ⟨b, hb, hiff⟩ := ih [] (by simp; omega) (Or.inl rfl)
          refine ⟨b, ?_, ?_⟩
          · simpa [find, erase, hfi, bind, Except.bind] using hb
          · rw [hiff]
            constructor
            · intro h
              have := h.length_le
              simp only [List.length_nil] at this; omega
            · intro h
              rw [List.suffix_cons_iff] at h
              rcases h with h | h
              · exact absurd h.symm heq
              · exact absurd (h.subset (mem_of_head? hf)) hno
        | some j =>
          obtain ⟨hno, hhead⟩ := firstIndex_eq_some hfi
          obtain ⟨b, hb, hiff⟩ := ih (rest.drop j) (by simp; omega) (Or.inr hhead)
          refine ⟨b, ?_, ?_⟩
          · simpa [find, erase, hfi, bind, Except.bind] using hb
          · rw [hiff]
            constructor
            · intro h
              exact h.trans ((List.drop_suffix j rest).trans (List.suffix_cons _ _))
            · intro h
              rw [List.suffix_cons_iff] at h
              rcases h with h | h
              · exact absurd h.symm heq
              · rw [← List.take_append_drop j rest] at h
                exact suffix_of_suffix_append hf hno h
    · rw [if_neg hge]
      refine ⟨false, rfl, ?_⟩
      simp only [Bool.false_eq_true, false_iff]
      intro h
      exact hge h.length_le

theorem dotted_head (s : Str) : (dotted s).head? = some '.' := by
  unfold dotted
  split
  · assumption
  · simp

theorem dotted_length_le (s : Str) : (dotted s).length ≤ s.length + 1 := by
  unfold dotted
  split <;> simp

theorem normalizeFilter_eq (filter : Str) : normalizeFilter filter = .ok (dotted filter) := by
  cases filter with
  | nil => simp [normalizeFilter, DomainIsHostOnly, insert, dotted]
  | cons x xs =>
    by_cases hx : x = '.'
    · simp [normalizeFilter, DomainIsHostOnly, insert, dotted, hx]
    · simp [normalizeFilter, DomainIsHostOnly, insert, dotted, hx]

theorem normalizeDomain_eq (domain : Str) : normalizeDomain domain = .ok (dotted domain) := by
  cases domain with
  | nil => simp [normalizeDomain, DomainIsHostOnly, insert, dotted, bind, Except.bind, pure, Except.pure]
  | cons x xs =>
    by_cases hx : x = '.'
    · simp [normalizeDomain, DomainIsHostOnly, insert, substr, dotted, hx, bind, Except.bind]
    · simp [normalizeDomain, DomainIsHostOnly, insert, dotted, hx, bind, Except.bind, pure, Except.pure]

/-- A run on any budget of at least `matchesDomainFuel domain` steps ends in a boolean,
which says whether the dotted filter is a suffix of the dotted cookie domain. -/
theorem MatchesDomainRun_spec (filter domain : Str) (extra : Nat) :
    ∃ b, MatchesDomainRun (matchesDomainFuel domain + extra) filter domain = .ok b ∧
      (b = true ↔ dotted filter <:+ dotted domain) := by
  obtain ⟨b, hb, hiff⟩ := MatchesDomainLoop_spec (dotted filter) (dotted_head filter)
    (matchesDomainFuel domain + extra) (dotted domain)
    (by have := dotted_length_le domain; unfold matchesDomainFuel; omega)
    (Or.inr (dotted_head domain))
  refine ⟨b, ?_, hiff⟩
  simp [MatchesDomainRun, normalizeFilter_eq, normalizeDomain_eq, bind, Except.bind, hb]

theorem MatchesDomainRun_ok (filter domain : Str) (extra : Nat) :
    MatchesDomainRun (matchesDomainFuel domain + extra) filter domain =
      .ok (MatchesDomain filter domain) := by
  obtain ⟨b, hb, hiff⟩ := MatchesDomainRun_spec filter domain extra
  obtain ⟨b0, hb0, hiff0⟩ := MatchesDomainRun_spec filter domain 0
  have h0 : MatchesDomain filter domain = b0 := by
    unfold MatchesDomain
    rw [Nat.add_zero] at hb0
    rw [hb0]
  rw [hb, h0]
  congr 1
  rw [Bool.eq_iff_iff, hiff, hiff0]

theorem MatchesDomain_iff (filter domain : Str) :
    MatchesDomain filter domain = true ↔ dotted filter <:+ dotted domain := by
  obtain ⟨b, hb, hiff⟩ := MatchesDomainRun_spec filter domain 0
  have := MatchesDomainRun_ok filter domain 0
  rw [hb] at this
  cases this
  exact hiff

theorem dotted_eq_cons_bareHost (s : Str) : dotted s = '.' :: bareHost s := by
  cases s with
  | nil => simp [dotted, bareHost]
  | cons x xs =>
    by_cases hx : x = '.'
    · simp [dotted, bareHost, hx]
    · simp [dotted, bareHost, hx]

theorem bareHost_suffix_dotted (s : Str) : dotted (bareHost s) <:+ dotted s := by
  rw [dotted_eq_cons_bareHost s]
  unfold dotted
  split
  · exact List.suffix_cons _ _
  · exact List.suffix_rfl

/-- C1: `MatchesDomain(f, d)` is true exactly when `N(f)` is a suffix of `N(d)`, that is
when the bare host of the cookie equals the bare host of the filter or ends with `.`
followed by it; the four examples of the specification come out as stated, and a filter
equal to the cookie's domain or to its bare host always matches. -/
theorem MatchesDomain_iff_suffix :
    (∀ f d : Str, MatchesDomain f d = true ↔ dotted f <:+ dotted d) ∧
    (∀ f d : Str, MatchesDomain f d = true ↔
      (bareHost d = bareHost f ∨ ('.' :: bareHost f) <:+ bareHost d)) ∧
    MatchesDomain ".example.com".toList "example.com".toList = true ∧
    MatchesDomain "example.com".toList "www.example.com".toList = true ∧
    MatchesDomain ".example.com".toList "sub.example.com".toList = true ∧
    MatchesDomain "example.com".toList "notexample.com".toList = false ∧
    (∀ d : Str, MatchesDomain d d = true) ∧
    (∀ d : Str, MatchesDomain (bareHost d) d = true) := by
  refine ⟨MatchesDomain_iff, ?_, by decide, by decide, by decide, by decide, ?_, ?_⟩
  · intro f d
    rw [MatchesDomain_iff, dotted_eq_cons_bareHost f, dotted_eq_cons_bareHost d,
      List.suffix_cons_iff]
    constructor
    · rintro (h | h)
      · left
        simpa using h.symm
      · exact Or.inr h
    · rintro (h | h)
      · left
        rw [h]
      · exact Or.inr h
  · intro d
    exact (MatchesDomain_iff d d).2 List.suffix_rfl
  · intro d
    exact (MatchesDomain_iff _ d).2 (bareHost_suffix_dotted d)

/-- C10: for every filter and cookie domain, the empty string included, a run of
`MatchesDomain` on its own budget or any larger one ends in a boolean, neither out of
range nor out of steps; the leading character is stripped only from a non-empty domain,
the normalised filter is never empty, every erasure in the loop succeeds and leaves a
strictly shorter string (the empty one when no further `.` exists), and for the empty
cookie domain the result is true exactly for the filters `""` and `"."`. -/
theorem MatchesDomain_terminates_in_range (filter domain : Str) :
    (∀ extra : Nat, MatchesDomainRun (matchesDomainFuel domain + extra) filter domain =
      .ok (MatchesDomain filter domain)) ∧
    (DomainIsHostOnly domain = true ∨ (domain ≠ [] ∧ substr domain 1 = .ok domain.tail)) ∧
    (∃ g, normalizeFilter filter = .ok g ∧ g ≠ [] ∧ 1 ≤ g.length) ∧
    (∃ sub, normalizeDomain domain = .ok sub ∧ sub ≠ []) ∧
    (∀ (x : Char) (rest : Str), ∃ sub, erase (x :: rest) 0 (find (x :: rest) '.' 1) = .ok sub ∧
      sub.length < (x :: rest).length ∧ ('.' ∈ rest ∨ sub = [])) ∧
    (MatchesDomain filter [] = true ↔ (filter = [] ∨ filter = ['.'])) := by
  refine ⟨MatchesDomainRun_ok filter domain, ?_, ?_, ?_, ?_, ?_⟩
  · cases domain with
    | nil => left; rfl
    | cons x xs =>
      right
      simp [substr]
  · refine ⟨dotted filter, normalizeFilter_eq filter, ?_, ?_⟩
    · rw [dotted_eq_cons_bareHost]; simp
    · rw [dotted_eq_cons_bareHost]; simp
  · refine ⟨dotted domain, normalizeDomain_eq domain, ?_⟩
    rw [dotted_eq_cons_bareHost]; simp
  · intro x rest
    cases hfi : firstIndex '.' rest with
    | none =>
      refine ⟨[], ?_, by simp, Or.inr rfl⟩
      simp [find, erase, hfi]
    | some j =>
      refine ⟨rest.drop j, ?_, ?_, Or.inl ?_⟩
      · simp [find, erase, hfi]
      · simp; omega
      · have := (firstIndex_eq_some hfi).2
        exact List.mem_of_mem_drop (mem_of_head? this)
  · rw [MatchesDomain_iff]
    have hd : dotted ([] : Str) = ['.'] := by simp [dotted]
    rw [hd, dotted_eq_cons_bareHost, List.suffix_cons_iff]
    cases filter with
    | nil => simp [bareHost]
    | cons x xs =>
      by_cases hx : x = '.'
      · simp [bareHost, hx]
      · simp [bareHost, hx]

/-- C2: `MatchesCookie(F, C)` is true exactly when every field present in `F` matches
`C` (name and path by equality, domain by `MatchesDomain`, secure by equality, session
against the negation of persistent); an absent field imposes nothing, so the empty
filter matches every cookie. -/
theorem MatchesCookie_iff_present_fields_match :
    (∀ (F : CookieFilter) (C : CanonicalCookie), MatchesCookie F C = true ↔
      ((∀ str, F.name = some str → str = C.Name) ∧
       (∀ str, F.path = some str → str = C.Path) ∧
       (∀ str, F.domain = some str → MatchesDomain str C.Domain = true) ∧
       (∀ b, F.secure = some b → b = C.IsSecure) ∧
       (∀ b, F.session = some b → b = !C.IsPersistent))) ∧
    (∀ C : CanonicalCookie, MatchesCookie ⟨none, none, none, none, none⟩ C = true) := by
  constructor
  · intro F C
    obtain ⟨name, path, domain, secure, session⟩ := F
    obtain ⟨Name, Value, Domain, Path, IsSecure, IsHttpOnly, IsPersistent⟩ := C
    unfold MatchesCookie
    cases IsPersistent <;> cases name <;> cases path <;> cases domain <;> cases secure <;>
      rcases session with _ | _ | _ <;> simp
  · intro C
    rfl

theorem foldl_push_eq_filter (filter : CookieFilter) (list : List CanonicalCookie) :
    ∀ result : List CanonicalCookie,
      list.foldl (fun result cookie =>
        if MatchesCookie filter cookie then result ++ [cookie] else result) result =
      result ++ list.filter (MatchesCookie filter) := by
  induction list with
  | nil => simp
  | cons c cs ih =>
    intro result
    rw [List.foldl_cons, ih]
    by_cases hc : MatchesCookie filter c = true
    · simp [hc, List.filter_cons]
    · simp [hc, List.filter_cons]

/-- C3: `FilterCookies` resolves the promise, once, with exactly the cookies of `L` that
`MatchesCookie(F, _)` accepts, in the order of `L` and with their multiplicities: the
result is a sublist of `L`, holds a cookie exactly when `L` holds it and it matches,
and as often as `L` does.  With the filter `{name: "sid"}` and cookies named `sid` and
`other`, only the `sid` cookie is left. -/
theorem FilterCookies_resolves_with_matching_sublist :
    (∀ (F : CookieFilter) (L E : List CanonicalCookie),
      FilterCookies F L E = [UITask.ResolvePromise (L.filter (MatchesCookie F))] ∧
      (L.filter (MatchesCookie F)).Sublist L ∧
      (∀ C, C ∈ L.filter (MatchesCookie F) ↔ (C ∈ L ∧ MatchesCookie F C = true)) ∧
      (∀ C, (L.filter (MatchesCookie F)).count C =
        if MatchesCookie F C = true then L.count C else 0)) ∧
    (∀ (a b : CanonicalCookie), a.Name = "sid".toList → b.Name = "other".toList →
      FilterCookies ⟨some "sid".toList, none, none, none, none⟩ [a, b] [] =
        [UITask.ResolvePromise [a]] ∧
      FilterCookies ⟨some "sid".toList, none, none, none, none⟩ [b, a] [] =
        [UITask.ResolvePromise [a]]) := by
  constructor
  · intro F L E
    refine ⟨?_, List.filter_sublist L, ?_, ?_⟩
    · simp [FilterCookies, filterLoop, foldl_push_eq_filter]
    · intro C
      simp [List.mem_filter]
    · intro C
      by_cases hC : MatchesCookie F C = true
      · rw [if_pos hC, List.count_filter hC]
      · rw [if_neg hC, List.count_eq_zero]
        intro hmem
        exact hC (List.mem_filter.1 hmem).2
  · intro a b ha hb
    have h1 : MatchesCookie ⟨some "sid".toList, none, none, none, none⟩ a = true := by
      simp [MatchesCookie, ha]
    have h2 : MatchesCookie ⟨some "sid".toList, none, none, none, none⟩ b = false := by
      simp [MatchesCookie, hb]
    simp only [FilterCookies, filterLoop, List.foldl_cons, List.foldl_nil, h1, h2]
    simp

/-- C9: for every inclusion status `OnSetCookie` posts exactly one settlement; it is the
resolution exactly for `INCLUDE`, and a rejection with the message fixed for the status
otherwise; the seven messages are pairwise distinct. -/
theorem OnSetCookie_settles_once :
    (∀ s, (OnSetCookie s).length = 1) ∧
    (∀ s, OnSetCookie s = [UITask.ResolveEmptyPromise] ↔ s = .INCLUDE) ∧
    (∀ s, s = .INCLUDE ∨ ∃ errmsg, errmsg ≠ [] ∧ OnSetCookie s = [UITask.RejectPromise errmsg]) ∧
    OnSetCookie .EXCLUDE_FAILURE_TO_STORE =
      [UITask.RejectPromise "Failed to parse cookie".toList] ∧
    OnSetCookie .EXCLUDE_HTTP_ONLY =
      [UITask.RejectPromise "Failed to create httponly cookie".toList] ∧
    OnSetCookie .EXCLUDE_SECURE_ONLY =
      [UITask.RejectPromise "Cannot create a secure cookie from an insecure URL".toList] ∧
    OnSetCookie .EXCLUDE_INVALID_DOMAIN =
      [UITask.RejectPromise "Failed to get cookie domain".toList] ∧
    OnSetCookie .EXCLUDE_INVALID_PREFIX =
      [UITask.RejectPromise "Failed because the cookie violated prefix rules.".toList] ∧
    OnSetCookie .EXCLUDE_NONCOOKIEABLE_SCHEME =
      [UITask.RejectPromise "Cannot set cookie for current scheme".toList] ∧
    (∀ code, OnSetCookie (.OTHER code) =
      [UITask.RejectPromise "Setting cookie failed".toList]) ∧
    List.Pairwise (· ≠ ·)
      ["Failed to parse cookie".toList, "Failed to create httponly cookie".toList,
       "Cannot create a secure cookie from an insecure URL".toList,
       "Failed to get cookie domain".toList,
       "Failed because the cookie violated prefix rules.".toList,
       "Cannot set cookie for current scheme".toList, "Setting cookie failed".toList] := by
  refine ⟨?_, ?_, ?_, by decide, by decide, by decide, by decide, by decide, by decide,
    fun _ => rfl, by decide⟩
  · intro s
    cases s <;> rfl
  · intro s
    cases s <;> simp [OnSetCookie, errmsgOf]
  · intro s
    cases s
    · exact Or.inl rfl
    all_goals exact Or.inr ⟨_, List.cons_ne_nil _ _, rfl⟩

theorem SetCookieOnIO_eq {Dbl Time Cookie : Type} (host : Host Dbl Time Cookie)
    (details : CookieDetails Dbl) :
    SetCookieOnIO host details =
      match synthesize host details with
      | none => ⟨[], OnSetCookie .EXCLUDE_FAILURE_TO_STORE⟩
      | some cookie =>
        if !host.IsCanonical cookie then ⟨[], OnSetCookie .EXCLUDE_FAILURE_TO_STORE⟩
        else if !(requestUrl host details).is_valid then ⟨[], OnSetCookie .EXCLUDE_INVALID_DOMAIN⟩
        else if (requestName details).isEmpty then ⟨[], OnSetCookie .EXCLUDE_FAILURE_TO_STORE⟩
        else ⟨[⟨cookie, (requestUrl host details).scheme, ⟨details.httpOnly.getD false⟩⟩], []⟩ :=
  rfl

/-- C8: when the url is not valid, or the name is empty, or the synthesized cookie is
missing or not canonical, `SetCookieOnIO` makes no call to the store and posts exactly
one settlement, a rejection with a non-empty message; when all three checks pass it
calls the store once, with the synthesized cookie, and settles nothing itself.  So the
store is called only when all three checks pass. -/
theorem SetCookieOnIO_calls_store_iff_checks_pass {Dbl Time Cookie : Type}
    (host : Host Dbl Time Cookie) (details : CookieDetails Dbl) :
    (((requestUrl host details).is_valid = false ∨ requestName details = [] ∨
        cookieIsCanonical host details = false) →
      ( SetCookieOnIO host details).store_calls = [] ∧
      ∃ errmsg, errmsg ≠ [] ∧
        ( SetCookieOnIO host details).posted = [UITask.RejectPromise errmsg]) ∧
    (((requestUrl host details).is_valid = true ∧ requestName details ≠ [] ∧
        cookieIsCanonical host details = true) →
      ( SetCookieOnIO host details).posted = [] ∧
      ∃ cookie, synthesize host details = some cookie ∧
        ( SetCookieOnIO host details).store_calls =
          [⟨cookie, (requestUrl host details).scheme, ⟨details.httpOnly.getD false⟩⟩]) ∧
    (( SetCookieOnIO host details).store_calls ≠ [] →
      ((requestUrl host details).is_valid = true ∧ requestName details ≠ [] ∧
        cookieIsCanonical host details = true)) := by
  have hparse : OnSetCookie .EXCLUDE_FAILURE_TO_STORE =
      [UITask.RejectPromise "Failed to parse cookie".toList] := by decide
  have hdomain : OnSetCookie .EXCLUDE_INVALID_DOMAIN =
      [UITask.RejectPromise "Failed to get cookie domain".toList] := by decide
  rw [SetCookieOnIO_eq]
  unfold cookieIsCanonical
  cases hs : synthesize host details with
  | none => simp [hparse]
  | some cookie =>
    cases hc : host.IsCanonical cookie with
    | false => simp [hparse, hc]
    | true =>
      cases hv : (requestUrl host details).is_valid with
      | false => simp [hdomain, hc, hv]
      | true =>
        cases hn : requestName details with
        | nil => simp [hparse, hc, hv, hn]
        | cons x xs => simp [hc, hv, hn]

/-- The hypotheses and conclusions of C8 at concrete requests: an empty url is refused
without a store call, and a request with url and name reaches the store. -/
theorem SetCookieOnIO_calls_store_iff_checks_pass_witness :
    ((requestUrl exampleHost (exampleDetails [] (some "a".toList))).is_valid = false ∧
      ( SetCookieOnIO exampleHost (exampleDetails [] (some "a".toList))).store_calls = []) ∧
    (((requestUrl exampleHost (exampleDetails "https://a.b".toList (some "a".toList))).is_valid
        = true ∧
      requestName (exampleDetails "https://a.b".toList (some "a".toList)) ≠ [] ∧
      cookieIsCanonical exampleHost (exampleDetails "https://a.b".toList (some "a".toList))
        = true) ∧
      ( SetCookieOnIO exampleHost
        (exampleDetails "https://a.b".toList (some "a".toList))).posted = []) :=
  ⟨⟨by decide,
    ((SetCookieOnIO_calls_store_iff_checks_pass exampleHost
      (exampleDetails [] (some "a".toList))).1 (Or.inl (by decide))).1⟩,
   ⟨by decide,
    ((SetCookieOnIO_calls_store_iff_checks_pass exampleHost
      (exampleDetails "https://a.b".toList (some "a".toList))).2.1 (by decide)).1⟩⟩

/-- C4, as stated, fails: a request with an empty name and an invalid url whose
synthesized cookie is present and canonical is rejected with "Failed to get cookie
domain", not with "Failed to parse cookie". -/
theorem SetCookieOnIO_empty_name_invalid_url :
    requestName (exampleDetails [] (some [])) = [] ∧
    ( SetCookieOnIO exampleHost (exampleDetails [] (some []))).posted =
      [UITask.RejectPromise "Failed to get cookie domain".toList] ∧
    ( SetCookieOnIO exampleHost (exampleDetails [] (some []))).posted ≠
      [UITask.RejectPromise "Failed to parse cookie".toList] ∧
    ( SetCookieOnIO exampleHost (exampleDetails [] none)).posted ≠
      [UITask.RejectPromise "Failed to parse cookie".toList] := by
  decide

/-- C4, amended: a request whose name is empty never reaches the store and is rejected
exactly once; the message is "Failed to parse cookie" when the url is valid or the
synthesized cookie is missing or not canonical, and "Failed to get cookie domain" when
the url is invalid and the synthesized cookie is present and canonical. -/
theorem SetCookieOnIO_empty_name_rejected {Dbl Time Cookie : Type}
    (host : Host Dbl Time Cookie) (details : CookieDetails Dbl)
    (hname : requestName details = []) :
    ( SetCookieOnIO host details).store_calls = [] ∧
    (((requestUrl host details).is_valid = true ∨ cookieIsCanonical host details = false) →
      ( SetCookieOnIO host details).posted =
        [UITask.RejectPromise "Failed to parse cookie".toList]) ∧
    (((requestUrl host details).is_valid = false ∧ cookieIsCanonical host details = true) →
      ( SetCookieOnIO host details).posted =
        [UITask.RejectPromise "Failed to get cookie domain".toList]) := by
  have hparse : OnSetCookie .EXCLUDE_FAILURE_TO_STORE =
      [UITask.RejectPromise "Failed to parse cookie".toList] := by decide
  have hdomain : OnSetCookie .EXCLUDE_INVALID_DOMAIN =
      [UITask.RejectPromise "Failed to get cookie domain".toList] := by decide
  rw [SetCookieOnIO_eq]
  unfold cookieIsCanonical
  rw [hname]
  cases hs : synthesize host details with
  | none => simp [hparse]
  | some cookie =>
    cases hc : host.IsCanonical cookie with
    | false => simp [hparse, hc]
    | true =>
      cases hv : (requestUrl host details).is_valid with
      | false => simp [hdomain, hc, hv]
      | true => simp [hparse, hc, hv]

/-- The amended C4 at concrete requests with an empty name: a valid url gives "Failed to
parse cookie", an empty url gives "Failed to get cookie domain". -/
theorem SetCookieOnIO_empty_name_rejected_witness :
    (requestName (exampleDetails "https://a.b".toList (some [])) = [] ∧
      ( SetCookieOnIO exampleHost (exampleDetails "https://a.b".toList (some []))).posted =
        [UITask.RejectPromise "Failed to parse cookie".toList]) ∧
    (requestName (exampleDetails [] none) = [] ∧
      ( SetCookieOnIO exampleHost (exampleDetails [] none)).posted =
        [UITask.RejectPromise "Failed to get cookie domain".toList]) :=
  ⟨⟨by decide,
    (SetCookieOnIO_empty_name_rejected exampleHost
      (exampleDetails "https://a.b".toList (some [])) (by decide)).2.1 (Or.inl (by decide))⟩,
   ⟨by decide,
    (SetCookieOnIO_empty_name_rejected exampleHost
      (exampleDetails [] none) (by decide)).2.2 ⟨by decide, by decide⟩⟩⟩

/-! ## The reference table -/

theorem lookup_mapErase {K V : Type} [DecidableEq K] (m : CppMap K V) (k k' : K) :
    lookup (mapErase m k) k' = if k' = k then none else lookup m k' := by
  induction m with
  | nil => simp [mapErase, lookup]
  | cons row rest ih =>
    obtain ⟨k0, v0⟩ := row
    unfold mapErase at ih ⊢
    by_cases h0 : k0 = k
    · subst h0
      rw [List.filter_cons_of_neg (by simp), ih]
      by_cases hk : k' = k0
      · simp [hk]
      · have : ¬ k0 = k' := fun e => hk e.symm
        simp [hk, lookup, this]
    · rw [List.filter_cons_of_pos (by simpa using h0)]
      simp only [lookup]
      rw [ih]
      by_cases hk : k' = k
      · subst hk
        simp [h0]
      · simp [hk]

theorem lookup_mapSet {K V : Type} [DecidableEq K] (m : CppMap K V) (k k' : K) (v : V) :
    lookup (mapSet m k v) k' = if k' = k then some v else lookup m k' := by
  unfold mapSet
  simp only [lookup]
  by_cases hk : k' = k
  · subst hk
    simp
  · have : ¬ k = k' := fun e => hk e.symm
    simp [hk, this, lookup_mapErase]

theorem mem_mapErase {K V : Type} [DecidableEq K] (m : CppMap K V) (k : K) (row : K × V) :
    row ∈ mapErase m k ↔ (row ∈ m ∧ row.1 ≠ k) := by
  simp [mapErase, List.mem_filter]

theorem mapErase_cons_same {K V : Type} [DecidableEq K] (m : CppMap K V) (k : K) (v : V) :
    mapErase ((k, v) :: m) k = mapErase m k := by
  simp [mapErase]

theorem mapErase_mapErase {K V : Type} [DecidableEq K] (m : CppMap K V) (k : K) :
    mapErase (mapErase m k) k = mapErase m k := by
  simp [mapErase, List.filter_filter]

theorem mapErase_subscript {K V : Type} [DecidableEq K] (m : CppMap K V) (k : K) (dflt : V) :
    mapErase (subscript m k dflt) k = mapErase m k := by
  unfold subscript
  split
  · rfl
  · exact mapErase_cons_same m k dflt

theorem mapErase_mapSet {K V : Type} [DecidableEq K] (m : CppMap K V) (k : K) (v : V) :
    mapErase (mapSet m k v) k = mapErase m k := by
  unfold mapSet
  rw [mapErase_cons_same, mapErase_mapErase]

theorem mapSet_subscript {K V : Type} [DecidableEq K] (m : CppMap K V) (k : K) (dflt v : V) :
    mapSet (subscript m k dflt) k v = mapSet m k v := by
  unfold mapSet
  rw [mapErase_subscript]

theorem mapSet_mapSet {K V : Type} [DecidableEq K] (m : CppMap K V) (k : K) (v w : V) :
    mapSet (mapSet m k v) k w = mapSet m k w := by
  show (k, w) :: mapErase (mapSet m k v) k = (k, w) :: mapErase m k
  rw [mapErase_mapSet]

theorem valueAt_subscript {K V : Type} [DecidableEq K] (m : CppMap K V) (k : K) (dflt : V) :
    valueAt (subscript m k dflt) k dflt = valueAt m k dflt := by
  unfold subscript valueAt
  cases h : lookup m k with
  | none => simp [lookup]
  | some v => simp [h]

theorem valueAt_mapSet {K V : Type} [DecidableEq K] (m : CppMap K V) (k : K) (v dflt : V) :
    valueAt (mapSet m k v) k dflt = v := by
  simp [valueAt, lookup_mapSet]

theorem subscript_mapSet {K V : Type} [DecidableEq K] (m : CppMap K V) (k : K) (v dflt : V) :
    subscript (mapSet m k v) k dflt = mapSet m k v := by
  unfold subscript
  rw [lookup_mapSet]
  simp

theorem mapErase_eq_nil_iff {K V : Type} [DecidableEq K] (m : CppMap K V) (k : K) :
    mapErase m k = [] ↔ ∀ k', k' ≠ k → lookup m k' = none := by
  constructor
  · intro h k' hk
    have := lookup_mapErase m k k'
    rw [h, if_neg hk] at this
    rw [← this]
    rfl
  · intro h
    induction m with
    | nil => rfl
    | cons row rest ih =>
      obtain ⟨k0, v0⟩ := row
      by_cases h0 : k0 = k
      · subst h0
        rw [mapErase_cons_same]
        apply ih
        intro k' hk
        have := h k' hk
        have hne : ¬ k0 = k' := fun e => hk e.symm
        simpa [lookup, hne] using this
      · have := h k0 h0
        simp [lookup] at this

/-- The statement `ref_mapper_[context_id][object_id]++` in one assignment. -/
theorem AddRef_eq (context_id : Str) (object_id : Int) (t : RefMapper) :
    AddRef context_id object_id t =
      mapSet t context_id (mapSet (valueAt t context_id []) object_id
        (wrapInt (valueAt (valueAt t context_id []) object_id 0 + 1))) := by
  unfold AddRef
  simp only [mapSet_subscript, valueAt_subscript]

/-- The body of `RunDestructor` when the frame is found, in one assignment. -/
theorem RunDestructor_eq (FromRoutingID : Int → Bool) (self : RemoteObjectFreer)
    (t : RefMapper) (hframe : FromRoutingID self.routing_id_ = true) :
    RunDestructor FromRoutingID self t =
      (if (mapErase (valueAt t self.context_id_ []) self.object_id_).isEmpty
        then mapErase t self.context_id_
        else mapSet t self.context_id_ (mapErase (valueAt t self.context_id_ []) self.object_id_),
       [releaseMessage self.context_id_ self.object_id_
          (valueAt (valueAt t self.context_id_ []) self.object_id_ 0)]) := by
  unfold RunDestructor
  simp only [hframe, Bool.not_true, Bool.false_eq_true, if_false, mapSet_subscript,
    valueAt_subscript, subscript_mapSet, valueAt_mapSet, mapSet_mapSet, mapErase_subscript,
    mapErase_mapSet]
  rfl

theorem RunDestructor_no_frame (FromRoutingID : Int → Bool) (self : RemoteObjectFreer)
    (t : RefMapper) (hframe : FromRoutingID self.routing_id_ = false) :
    RunDestructor FromRoutingID self t = (t, []) := by
  simp [RunDestructor, hframe]

theorem valueAt_valueAt_eq_entry (t : RefMapper) (c : Str) (o : Int) :
    valueAt (valueAt t c []) o 0 = (entry t c o).getD 0 := by
  unfold valueAt entry
  cases lookup t c with
  | none => rfl
  | some objects => rfl

theorem lookup_valueAt_eq_entry (t : RefMapper) (c : Str) (o : Int) :
    lookup (valueAt t c []) o = entry t c o := by
  unfold valueAt entry
  cases lookup t c with
  | none => rfl
  | some objects => rfl

theorem entry_of_lookup_some {t : RefMapper} {c : Str} {objects : CppMap Int Int}
    (h : lookup t c = some objects) (o : Int) : entry t c o = lookup objects o := by
  unfold entry
  rw [h]
  rfl

theorem entry_of_lookup_none {t : RefMapper} {c : Str} (h : lookup t c = none) (o : Int) :
    entry t c o = none := by
  unfold entry
  rw [h]
  rfl

theorem entry_congr {t t' : RefMapper} {c : Str} (h : lookup t c = lookup t' c) (o : Int) :
    entry t c o = entry t' c o := by
  unfold entry
  rw [h]

theorem entry_AddRef (c : Str) (o : Int) (t : RefMapper) (c' : Str) (o' : Int) :
    entry (AddRef c o t) c' o' =
      if c' = c ∧ o' = o then some (wrapInt ((entry t c o).getD 0 + 1)) else entry t c' o' := by
  by_cases hc : c' = c
  · subst hc
    have hl := lookup_mapSet t c' c' (mapSet (valueAt t c' []) o
      (wrapInt (valueAt (valueAt t c' []) o 0 + 1)))
    rw [if_pos rfl, ← AddRef_eq] at hl
    rw [entry_of_lookup_some hl, lookup_mapSet, lookup_valueAt_eq_entry,
      valueAt_valueAt_eq_entry]
    by_cases ho : o' = o <;> simp [ho]
  · have hl := lookup_mapSet t c c' (mapSet (valueAt t c []) o
      (wrapInt (valueAt (valueAt t c []) o 0 + 1)))
    rw [if_neg hc, ← AddRef_eq] at hl
    rw [entry_congr hl]
    simp [hc]

theorem entry_RunDestructor (FromRoutingID : Int → Bool) (self : RemoteObjectFreer)
    (t : RefMapper) (hframe : FromRoutingID self.routing_id_ = true) (c' : Str) (o' : Int) :
    entry (RunDestructor FromRoutingID self t).1 c' o' =
      if c' = self.context_id_ ∧ o' = self.object_id_ then none else entry t c' o' := by
  rw [RunDestructor_eq FromRoutingID self t hframe]
  simp only
  by_cases hempty : (mapErase (valueAt t self.context_id_ []) self.object_id_).isEmpty = true
  · rw [if_pos hempty]
    have hl := lookup_mapErase t self.context_id_ c'
    by_cases hc : c' = self.context_id_
    · subst hc
      rw [if_pos rfl] at hl
      rw [entry_of_lookup_none hl]
      by_cases ho : o' = self.object_id_
      · simp [ho]
      · have hnil := (mapErase_eq_nil_iff _ _).1 (List.isEmpty_iff.1 hempty) o' ho
        rw [lookup_valueAt_eq_entry] at hnil
        simp [ho, hnil]
    · rw [if_neg hc] at hl
      rw [entry_congr hl]
      simp [hc]
  · rw [if_neg hempty]
    have hl := lookup_mapSet t self.context_id_ c'
      (mapErase (valueAt t self.context_id_ []) self.object_id_)
    by_cases hc : c' = self.context_id_
    · subst hc
      rw [if_pos rfl] at hl
      rw [entry_of_lookup_some hl, lookup_mapErase, lookup_valueAt_eq_entry]
      by_cases ho : o' = self.object_id_ <;> simp [ho]
    · rw [if_neg hc] at hl
      rw [entry_congr hl]
      simp [hc]

theorem hasContext_RunDestructor (FromRoutingID : Int → Bool) (self : RemoteObjectFreer)
    (t : RefMapper) (hframe : FromRoutingID self.routing_id_ = true) (c' : Str) :
    hasContext (RunDestructor FromRoutingID self t).1 c' =
      if c' = self.context_id_
        then !(mapErase (valueAt t self.context_id_ []) self.object_id_).isEmpty
        else hasContext t c' := by
  rw [RunDestructor_eq FromRoutingID self t hframe]
  simp only
  unfold hasContext
  by_cases hempty : (mapErase (valueAt t self.context_id_ []) self.object_id_).isEmpty = true
  · rw [if_pos hempty, lookup_mapErase, hempty]
    by_cases hc : c' = self.context_id_ <;> simp [hc]
  · rw [if_neg hempty, lookup_mapSet]
    by_cases hc : c' = self.context_id_ <;> simp [hc, hempty]

theorem wrapInt_succ (x : Int) : wrapInt (wrapInt x + 1) = wrapInt (x + 1) := by
  unfold wrapInt
  omega

theorem wrapInt_of_lt (n : Nat) (h : n < 2147483648) : wrapInt (n : Int) = n := by
  unfold wrapInt
  omega

/-- One operation that does not finalise `(c, o)` changes the row of `(c, o)` only when
it is `AddRef(c, o)`. -/
theorem entry_step (c : Str) (o : Int) (state : RefMapper × List Message) (op : Op)
    (hop : finalizes c o op = false) :
    entry (step state op).1 c o =
      if op = Op.AddRef c o then some (wrapInt ((entry state.1 c o).getD 0 + 1))
      else entry state.1 c o := by
  cases op with
  | AddRef c' o' =>
    simp only [step, entry_AddRef, Op.AddRef.injEq]
    by_cases h : c = c' ∧ o = o'
    · obtain ⟨rfl, rfl⟩ := h
      simp
    · have h' : ¬ (c' = c ∧ o' = o) := fun e => h ⟨e.1.symm, e.2.symm⟩
      rw [if_neg h, if_neg h']
  | RunDestructor self render_frame =>
    simp only [step, reduceCtorEq, if_false]
    cases render_frame with
    | false => rw [RunDestructor_no_frame _ _ _ rfl]
    | true =>
      rw [entry_RunDestructor _ _ _ rfl]
      have h : ¬ (c = self.context_id_ ∧ o = self.object_id_) := by
        intro e
        simp [finalizes, e.1, e.2] at hop
      rw [if_neg h]

theorem run_cons (op : Op) (ops : List Op) (state : RefMapper × List Message) :
    run (op :: ops) state = run ops (step state op) := rfl

theorem addRefCount_cons (op : Op) (ops : List Op) (c : Str) (o : Int) :
    addRefCount (op :: ops) c o =
      addRefCount ops c o + (if op = Op.AddRef c o then 1 else 0) := by
  simp [addRefCount, List.countP_cons]

/-- The count of `(c, o)` after a sequence that never finalises `(c, o)`: the count before,
raised once for each `AddRef(c, o)`, as a 32-bit `int`. -/
theorem entry_run (c : Str) (o : Int) (ops : List Op) :
    ∀ (state : RefMapper × List Message) (x : Int),
      (∀ op ∈ ops, finalizes c o op = false) →
      (entry state.1 c o).getD 0 = wrapInt x →
      (entry (run ops state).1 c o).getD 0 = wrapInt (x + addRefCount ops c o) := by
  induction ops with
  | nil =>
    intro state x _ hx
    simpa [run, addRefCount] using hx
  | cons op ops ih =>
    intro state x hops hx
    rw [run_cons, addRefCount_cons]
    have hop := hops op (List.mem_cons_self _ _)
    have hrest : ∀ op' ∈ ops, finalizes c o op' = false :=
      fun op' h => hops op' (List.mem_cons_of_mem _ h)
    by_cases h : op = Op.AddRef c o
    · have := ih (step state op) (x + 1) hrest (by
        rw [entry_step c o state op hop, if_pos h, Option.getD_some, hx, wrapInt_succ])
      rw [this, if_pos h]
      congr 1
      push_cast
      ring
    · have := ih (step state op) x hrest (by
        rw [entry_step c o state op hop, if_neg h, hx])
      rw [this, if_neg h]
      simp

theorem addRefCount_replicate (n : Nat) (c : Str) (o : Int) :
    addRefCount (List.replicate n (Op.AddRef c o)) c o = n := by
  induction n with
  | zero => rfl
  | succ n ih =>
    rw [List.replicate_succ, addRefCount_cons, ih]
    simp

/-- C5, as stated, fails twice over: when the frame of the freer is no longer found,
`RunDestructor` returns at once and sends nothing; and the count is a 32-bit `int`, which
cannot carry `n = 2^31` (on a two's-complement machine the message carries `-2^31`). -/
theorem RunDestructor_release_not_always_sent :
    (RunDestructor (fun _ => false) ⟨"ctx1".toList, 5, 0⟩
      (run [.AddRef "ctx1".toList 5, .AddRef "ctx1".toList 5] ([], [])).1).2 = [] ∧
    (RunDestructor (fun _ => true) ⟨"ctx1".toList, 5, 0⟩
      (run (List.replicate 2147483648 (.AddRef "ctx1".toList 5)) ([], [])).1).2 =
      [releaseMessage "ctx1".toList 5 (-2147483648)] := by
  constructor
  · decide
  · rw [RunDestructor_eq _ _ _ rfl]
    simp only [valueAt_valueAt_eq_entry]
    have hrun := entry_run "ctx1".toList 5 (List.replicate 2147483648 (.AddRef "ctx1".toList 5))
      ([], []) 0 (fun op hop => by rw [List.eq_of_mem_replicate hop]; rfl) rfl
    rw [addRefCount_replicate] at hrun
    rw [hrun]
    rfl

/-- C5, amended: from a table with no row for `(c, o)`, after a sequence of operations
that holds `n` calls `AddRef(c, o)` and otherwise only operations on other keys, with
`n` at most `2^31 - 1`, a `RunDestructor` for `(c, o)` whose frame is found sends exactly
one release message, which carries `(c, o, n)`; when its frame is not found it sends
nothing. -/
theorem RunDestructor_reports_AddRef_count (c : Str) (o : Int) (t : RefMapper)
    (msgs : List Message) (ops : List Op) (self : RemoteObjectFreer)
    (hc : self.context_id_ = c) (ho : self.object_id_ = o)
    (hfresh : entry t c o = none)
    (hops : ∀ op ∈ ops, finalizes c o op = false)
    (hn : addRefCount ops c o < 2147483648) :
    (∀ FromRoutingID : Int → Bool, FromRoutingID self.routing_id_ = true →
      (RunDestructor FromRoutingID self (run ops (t, msgs)).1).2 =
        [releaseMessage c o (addRefCount ops c o)]) ∧
    (∀ FromRoutingID : Int → Bool, FromRoutingID self.routing_id_ = false →
      (RunDestructor FromRoutingID self (run ops (t, msgs)).1).2 = []) := by
  constructor
  · intro F hframe
    rw [RunDestructor_eq F self _ hframe]
    simp only [valueAt_valueAt_eq_entry, hc, ho]
    have hrun := entry_run c o ops (t, msgs) 0 hops (by rw [hfresh]; rfl)
    rw [hrun, Int.zero_add, wrapInt_of_lt _ hn]
  · intro F hframe
    rw [RunDestructor_no_frame F self _ hframe]

/-- The amended C5 at concrete sequences: two `AddRef` give the count 2, a key never
added gives 0, and operations on other keys in between do not count. -/
theorem RunDestructor_reports_AddRef_count_witness :
    (RunDestructor (fun _ => true) ⟨"ctx1".toList, 5, 0⟩
      (run [.AddRef "ctx1".toList 5, .AddRef "ctx1".toList 5] ([], [])).1).2 =
      [releaseMessage "ctx1".toList 5 2] ∧
    (RunDestructor (fun _ => true) ⟨"ctx1".toList, 5, 0⟩ (run [] ([], [])).1).2 =
      [releaseMessage "ctx1".toList 5 0] ∧
    (RunDestructor (fun _ => true) ⟨"ctx1".toList, 5, 0⟩
      (run [.AddRef "ctx1".toList 5, .AddRef "ctx1".toList 6,
        .RunDestructor ⟨"ctx1".toList, 6, 0⟩ true, .AddRef "ctx2".toList 5,
        .AddRef "ctx1".toList 5, .AddRef "ctx1".toList 5] ([], [])).1).2 =
      [releaseMessage "ctx1".toList 5 3] :=
  ⟨(RunDestructor_reports_AddRef_count "ctx1".toList 5 [] []
      [.AddRef "ctx1".toList 5, .AddRef "ctx1".toList 5] ⟨"ctx1".toList, 5, 0⟩
      rfl rfl (by decide) (by decide) (by decide)).1 (fun _ => true) rfl,
   (RunDestructor_reports_AddRef_count "ctx1".toList 5 [] []
      [] ⟨"ctx1".toList, 5, 0⟩
      rfl rfl (by decide) (by decide) (by decide)).1 (fun _ => true) rfl,
   (RunDestructor_reports_AddRef_count "ctx1".toList 5 [] []
      [.AddRef "ctx1".toList 5, .AddRef "ctx1".toList 6,
        .RunDestructor ⟨"ctx1".toList, 6, 0⟩ true, .AddRef "ctx2".toList 5,
        .AddRef "ctx1".toList 5, .AddRef "ctx1".toList 5] ⟨"ctx1".toList, 5, 0⟩
      rfl rfl (by decide) (by decide) (by decide)).1 (fun _ => true) rfl⟩

/-- C6, as stated, fails: when the frame of the freer is no longer found, `RunDestructor`
returns at once and the row of `(c, o)` stays in the table. -/
theorem RunDestructor_without_frame_keeps_row :
    entry (RunDestructor (fun _ => false) ⟨"ctx1".toList, 5, 0⟩
      [("ctx1".toList, [(5, 2)])]).1 "ctx1".toList 5 = some 2 ∧
    entry (RunDestructor (fun _ => false) ⟨"ctx1".toList, 5, 0⟩
      [("ctx1".toList, [(5, 2)])]).1 "ctx1".toList 5 ≠ none := by
  decide

/-- C6, amended: when the frame of the freer is found, after `RunDestructor` for `(c, o)`
the table has no row for `(c, o)`, context `c` is in the table exactly when it held an
object other than `o` before, every other row and every other context is as before,
and an `AddRef(c, o)` arriving afterwards starts a fresh row at count 1; when the frame
is not found, the table is unchanged. -/
theorem RunDestructor_erases_only_its_row (FromRoutingID : Int → Bool)
    (self : RemoteObjectFreer) (t : RefMapper) :
    (FromRoutingID self.routing_id_ = true →
      entry (RunDestructor FromRoutingID self t).1 self.context_id_ self.object_id_ = none ∧
      (hasContext (RunDestructor FromRoutingID self t).1 self.context_id_ = true ↔
        ∃ o', o' ≠ self.object_id_ ∧ entry t self.context_id_ o' ≠ none) ∧
      (∀ c' o', ¬ (c' = self.context_id_ ∧ o' = self.object_id_) →
        entry (RunDestructor FromRoutingID self t).1 c' o' = entry t c' o') ∧
      (∀ c', c' ≠ self.context_id_ →
        hasContext (RunDestructor FromRoutingID self t).1 c' = hasContext t c') ∧
      entry (AddRef self.context_id_ self.object_id_ (RunDestructor FromRoutingID self t).1)
        self.context_id_ self.object_id_ = some 1) ∧
    (FromRoutingID self.routing_id_ = false →
      (RunDestructor FromRoutingID self t).1 = t) := by
  constructor
  · intro hframe
    have hgone : entry (RunDestructor FromRoutingID self t).1 self.context_id_
        self.object_id_ = none := by
      rw [entry_RunDestructor _ _ _ hframe]
      simp
    refine ⟨hgone, ?_, ?_, ?_, ?_⟩
    · rw [hasContext_RunDestructor _ _ _ hframe, if_pos rfl]
      simp only [Bool.not_eq_true', ← Bool.not_eq_true, List.isEmpty_iff]
      rw [mapErase_eq_nil_iff]
      simp only [lookup_valueAt_eq_entry]
      constructor
      · intro h
        by_contra hno
        apply h
        intro k' hk'
        by_contra hne
        exact hno ⟨k', hk', hne⟩
      · rintro ⟨o', ho', hne⟩ h
        exact hne (h o' ho')
    · intro c' o' hne
      rw [entry_RunDestructor _ _ _ hframe, if_neg hne]
    · intro c' hne
      rw [hasContext_RunDestructor _ _ _ hframe, if_neg hne]
    · rw [entry_AddRef, if_pos ⟨rfl, rfl⟩, hgone]
      rfl
  · intro hframe
    rw [RunDestructor_no_frame _ _ _ hframe]

/-- The amended C6 on a table with two objects under one context and one under another:
the finalised row goes, the context stays for its other object, and the rest is kept. -/
theorem RunDestructor_erases_only_its_row_witness :
    entry (RunDestructor (fun _ => true) ⟨"ctx1".toList, 5, 0⟩
      [("ctx1".toList, [(5, 2), (6, 1)]), ("ctx2".toList, [(5, 4)])]).1 "ctx1".toList 5 = none ∧
    entry (RunDestructor (fun _ => true) ⟨"ctx1".toList, 5, 0⟩
      [("ctx1".toList, [(5, 2), (6, 1)]), ("ctx2".toList, [(5, 4)])]).1 "ctx1".toList 6 =
      some 1 ∧
    (RunDestructor (fun _ => false) ⟨"ctx1".toList, 5, 0⟩
      [("ctx1".toList, [(5, 2), (6, 1)]), ("ctx2".toList, [(5, 4)])]).1 =
      [("ctx1".toList, [(5, 2), (6, 1)]), ("ctx2".toList, [(5, 4)])] :=
  ⟨((RunDestructor_erases_only_its_row (fun _ => true) ⟨"ctx1".toList, 5, 0⟩
      [("ctx1".toList, [(5, 2), (6, 1)]), ("ctx2".toList, [(5, 4)])]).1 rfl).1,
   (((RunDestructor_erases_only_its_row (fun _ => true) ⟨"ctx1".toList, 5, 0⟩
      [("ctx1".toList, [(5, 2), (6, 1)]), ("ctx2".toList, [(5, 4)])]).1 rfl).2.2.1
      "ctx1".toList 6 (by decide)).trans (by decide),
   (RunDestructor_erases_only_its_row (fun _ => false) ⟨"ctx1".toList, 5, 0⟩
      [("ctx1".toList, [(5, 2), (6, 1)]), ("ctx2".toList, [(5, 4)])]).2 rfl⟩

theorem lookup_mem {K V : Type} [DecidableEq K] {m : CppMap K V} {k : K} {v : V}
    (h : lookup m k = some v) : (k, v) ∈ m := by
  induction m with
  | nil => simp [lookup] at h
  | cons row rest ih =>
    obtain ⟨k0, v0⟩ := row
    simp only [lookup] at h
    by_cases h0 : k0 = k
    · rw [if_pos h0] at h
      cases h
      simp [h0]
    · rw [if_neg h0] at h
      exact List.mem_cons_of_mem _ (ih h)

theorem NoEmptyContext_mapErase {t : RefMapper} (h : NoEmptyContext t) (c : Str) :
    NoEmptyContext (mapErase t c) :=
  fun row hrow => h row ((mem_mapErase t c row).1 hrow).1

theorem NoEmptyContext_mapSet {t : RefMapper} (h : NoEmptyContext t) (c : Str)
    (objects : CppMap Int Int) (hobjects : objects ≠ []) :
    NoEmptyContext (mapSet t c objects) := by
  intro row hrow
  rcases List.mem_cons.1 hrow with rfl | hrow
  · exact hobjects
  · exact NoEmptyContext_mapErase h c row hrow

theorem NoEmptyContext_step (state : RefMapper × List Message) (op : Op)
    (h : NoEmptyContext state.1) : NoEmptyContext (step state op).1 := by
  cases op with
  | AddRef c o =>
    simp only [step, AddRef_eq]
    exact NoEmptyContext_mapSet h c _ (List.cons_ne_nil _ _)
  | RunDestructor self render_frame =>
    cases render_frame with
    | false =>
      simp only [step]
      rw [RunDestructor_no_frame _ _ _ rfl]
      exact h
    | true =>
      simp only [step]
      rw [RunDestructor_eq _ _ _ rfl]
      simp only
      split
      · exact NoEmptyContext_mapErase h _
      · rename_i hne
        exact NoEmptyContext_mapSet h _ _ (fun e => hne (by rw [e]; rfl))

theorem NoEmptyContext_run (ops : List Op) :
    ∀ state : RefMapper × List Message, NoEmptyContext state.1 →
      NoEmptyContext (run ops state).1 := by
  induction ops with
  | nil => intro state h; exact h
  | cons op ops ih =>
    intro state h
    rw [run_cons]
    exact ih _ (NoEmptyContext_step state op h)

/-- C7: in every table reached from the empty one by a finite sequence of `AddRef` and
`RunDestructor` operations (with the frame found or not), no row of the outer map holds
an empty inner map, and so no context id is looked up to an empty inner map. -/
theorem reachable_table_has_no_empty_context (ops : List Op) :
    (∀ row ∈ (run ops ([], [])).1, row.2 ≠ []) ∧
    (∀ (c : Str) (objects : CppMap Int Int),
      lookup (run ops ([], [])).1 c = some objects → objects ≠ []) := by
  have h : NoEmptyContext (run ops ([], [])).1 :=
    NoEmptyContext_run ops ([], []) (fun row hrow => by simp at hrow)
  exact ⟨h, fun c objects hl => h (c, objects) (lookup_mem hl)⟩

end Atom
